import Mathlib

/-!
Shallow embedding of the kinetic Monte Carlo engine in `montecarlo.py`
(`MonteCarloSimulation`): per-site occupancy and energy state, the deposition
(`add_atom`) and diffusion (`move_atom`) algorithms, the energy bookkeeping
(`update_energy`, `keep_modification`), the pre-population setup, and the
step/lap driver (`run_lap`).

Modelling conventions:
* NumPy float energies are modelled as exact rationals (`ℚ`).
* The potential callback `self.V(i, occ[nni], surface, **params)` is a
  parameter `V : Nat → List Bool → ℚ` applied to the site index and the
  occupancy of the site's full neighbour row.
* `np.exp (-nne * boltzmann_T)` is modelled by a parameter `w : ℚ → ℚ`
  (the Boltzmann weight function); real `exp` is strictly positive, which
  theorems assume where needed.
* Calls of `np.random.choice` are modelled by explicit selection inputs:
  an index into the list being sampled (reduced modulo its length), and for
  the weighted destination choice an index into the list of candidates that
  carry strictly positive probability (`np.random.choice` never returns an
  entry of zero probability, and raises when no valid probability vector
  exists — modelled by `Option`).
* NumPy fancy-indexing assignments become `List.set` folds; boolean-mask
  reads become `List.filter` over `List.range`.
* A raised exception (sampling from an empty array, shape mismatch when
  fewer than 3 first-shell neighbours exist) is modelled as `none`.
-/

/-- The lattice-provider contract consumed by the engine: total site count
`stlen` and the per-site neighbour row `nni` (ordered, shells at offsets
3 / 9 / 18 / 24). -/
structure Surface where
  stlen : Nat
  nni : Nat → List Nat

/-- The mutable simulation state of `MonteCarloSimulation`: occupancy,
per-site energies, aggregate energy, the single-generation snapshot
buffers, and the move / placement counters. -/
structure MCState where
  occ : List Bool
  energies : List ℚ
  energy : ℚ
  previous_occ : List Bool
  previous_energies : List ℚ
  previous_energy : ℚ
  attempted_moves : Nat
  successful_moves : Nat
  not_moved_moves : Nat
  blocked_moves : Nat
  move_accepted : Nat
  total_steps : Nat
  add_prepopulated : Nat
deriving DecidableEq

/-- A state with everything empty (used to project out of `Option` results
at concrete inputs). -/
def emptyState : MCState :=
  { occ := [], energies := [], energy := 0,
    previous_occ := [], previous_energies := [], previous_energy := 0,
    attempted_moves := 0, successful_moves := 0, not_moved_moves := 0,
    blocked_moves := 0, move_accepted := 0, total_steps := 0,
    add_prepopulated := 0 }

/-- `self.get_energy(i)`: the potential evaluated at `i` on the occupancy of
`i`'s full neighbour row (`self.V(i, self.occ[nni], ...)`). -/
def get_energy (V : Nat → List Bool → ℚ) (surf : Surface) (occ : List Bool)
    (i : Nat) : ℚ :=
  V i ((surf.nni i).map (fun k => occ.getD k false))

/-- First pass of `update_energy`: `self.energies[idx[~occ]] = 0`. -/
def zero_pass (occ : List Bool) (idx : List Nat) (es : List ℚ) : List ℚ :=
  idx.foldl (fun a i => if occ.getD i false then a else a.set i 0) es

/-- Second pass of `update_energy`: `self.energies[i] = self.get_energy(i)`
for each occupied touched site. -/
def calc_pass (V : Nat → List Bool → ℚ) (surf : Surface) (occ : List Bool)
    (idx : List Nat) (es : List ℚ) : List ℚ :=
  idx.foldl (fun a i => if occ.getD i false
                        then a.set i (get_energy V surf occ i) else a) es

/-- `self.update_energy(indices)`: zero the unoccupied touched sites,
recompute the occupied touched sites, and refresh the aggregate energy as
the full sum `np.sum(self.energies)`. -/
def update_energy (V : Nat → List Bool → ℚ) (surf : Surface)
    (idx : List Nat) (s : MCState) : MCState :=
  let es := calc_pass V surf s.occ idx (zero_pass s.occ idx s.energies)
  { s with energies := es, energy := es.sum }

/-- `self.keep_modification(indices)`: copy current occupancy / energies at
the touched indices (and the aggregate energy) into the snapshot buffers. -/
def keep_modification (idx : List Nat) (s : MCState) : MCState :=
  { s with
    previous_energies :=
      idx.foldl (fun a i => a.set i (s.energies.getD i 0)) s.previous_energies,
    previous_energy := s.energy,
    previous_occ :=
      idx.foldl (fun a i => a.set i (s.occ.getD i false)) s.previous_occ }

/-- `self.atoms_on_surface`: `np.count_nonzero(self.occ)`. -/
def atoms_on_surface (s : MCState) : Nat := s.occ.count true

/-- `self.coverage`: `atoms_on_surface / len(occ)`. -/
def coverage (s : MCState) : ℚ :=
  (atoms_on_surface s : ℚ) / (s.occ.length : ℚ)

/-- `self.surface.sti[np.logical_not(self.occ)]`: the unoccupied site
indices. -/
def not_occ_list (surf : Surface) (s : MCState) : List Nat :=
  (List.range surf.stlen).filter (fun k => !(s.occ.getD k false))

/-- `self.surface.sti[self.occ]`: the occupied site indices. -/
def occ_list (surf : Surface) (s : MCState) : List Nat :=
  (List.range surf.stlen).filter (fun k => s.occ.getD k false)

/-- The exclusion-zone test of `add_atom`:
`not np.any(self.occ[nni[:9]])`. -/
def add_good (surf : Surface) (s : MCState) : Nat → Bool :=
  fun i => !(((surf.nni i).take 9).any (fun k => s.occ.getD k false))

/-- `i = np.random.choice(self.surface.sti[self.occ])`: the occupied site
drawn by selection input `ri`. -/
def sampled_site (surf : Surface) (s : MCState) (ri : Nat) : Nat :=
  (occ_list surf s).getD (ri % (occ_list surf s).length) 0

/-- The blocked-move check of `move_atom`: encasing ring `nni[18:24]` fully
occupied, inner surroundings `nni[:18]` fully unoccupied, and `i` itself
occupied. -/
def blocked_cond (surf : Surface) (s : MCState) (i : Nat) : Bool :=
  (((surf.nni i).drop 18).take 6).all (fun k => s.occ.getD k false) &&
  !(((surf.nni i).take 18).any (fun k => s.occ.getD k false)) &&
  s.occ.getD i false

/-- The candidate-sampling loop of `add_atom`: up to `fuel + 1` attempts,
attempt `n` draws `cands[pick n % len]`, stopping at the first candidate
whose exclusion zone is clear (`good`); otherwise the last sampled
candidate is returned with `add_success = False`. -/
def add_search (pick : Nat → Nat) (cands : List Nat) (good : Nat → Bool) :
    Nat → Nat → Nat × Bool
  | n, 0 => (cands.getD (pick n % cands.length) 0,
             good (cands.getD (pick n % cands.length) 0))
  | n, fuel + 1 =>
    let i := cands.getD (pick n % cands.length) 0
    if good i then (i, true) else add_search pick cands good (n + 1) fuel

/-- `self.add_atom()`: sample unoccupied candidates (up to `stlen` tries)
until one has its first 9 neighbour-row entries unoccupied, then occupy the
final candidate (even on exhaustion) and update the energies of its full
neighbour row and of the site itself.  Returns the chosen site, the
`add_success` flag, and the new state; `none` models the `ValueError`
raised by `np.random.choice` on an empty unoccupied set. -/
def add_atom (pick : Nat → Nat) (V : Nat → List Bool → ℚ) (surf : Surface)
    (s : MCState) : Option (Nat × Bool × MCState) :=
  let cands := not_occ_list surf s
  if cands.length = 0 then none
  else
    let r := add_search pick cands (add_good surf s) 0 (surf.stlen - 1)
    let s1 := { s with occ := s.occ.set r.1 true }
    let s2 := update_energy V surf (surf.nni r.1) s1
    let s3 := update_energy V surf [r.1] s2
    some (r.1, r.2, s3)

/-- `self._nni`: the hop-candidate set `{i} ∪ nni[i][:3]`. -/
def hop_cand (surf : Surface) (i : Nat) : List Nat :=
  i :: (surf.nni i).take 3

/-- `self._nne`: hop energy per candidate — `0` if the candidate is occupied
(after `i` was vacated), else the potential at that candidate. -/
def hop_nne (V : Nat → List Bool → ℚ) (surf : Surface) (occ1 : List Bool)
    (cand : List Nat) : List ℚ :=
  cand.map (fun ii => if occ1.getD ii false then 0 else get_energy V surf occ1 ii)

/-- `self._occ`: the occupancy of the candidates after `i` was vacated. -/
def hop_occ (occ1 : List Bool) (cand : List Nat) : List Bool :=
  cand.map (fun ii => occ1.getD ii false)

/-- `self._p = np.exp(-self._nne * self.boltzmann_T)`, with the exponential
modelled by `w`. -/
def hop_raw (w : ℚ → ℚ) (nne : List ℚ) : List ℚ := nne.map w

/-- `self._p[self._occ] = 0`: zero the weights of occupied candidates. -/
def hop_masked (praw : List ℚ) (occc : List Bool) : List ℚ :=
  List.zipWith (fun pv o => if o then 0 else pv) praw occc

/-- The full masked weight vector of a hop from `i` (raw Boltzmann weights
with occupied candidates zeroed). -/
def hop_weights (V : Nat → List Bool → ℚ) (w : ℚ → ℚ) (surf : Surface)
    (occ1 : List Bool) (i : Nat) : List ℚ :=
  hop_masked (hop_raw w (hop_nne V surf occ1 (hop_cand surf i)))
    (hop_occ occ1 (hop_cand surf i))

/-- `self._p[:] /= np.sum(self._p)`: the normalized probability vector. -/
def hop_probs (pm : List ℚ) : List ℚ := pm.map (fun x => x / pm.sum)

/-- The support of the probability vector: candidate positions carrying
strictly positive probability. -/
def hop_pos (probs : List ℚ) : List Nat :=
  (List.range probs.length).filter (fun k => decide (0 < probs.getD k 0))

/-- `j = np.random.choice(self._nni, p=self._p)`: a destination drawn from
the positive-probability candidates; `none` models the error raised when no
valid positive probability exists. -/
def hop_select (cand : List Nat) (probs : List ℚ) (rj : Nat) : Option Nat :=
  let pos := hop_pos probs
  if pos.length = 0 then none
  else some (cand.getD (pos.getD (rj % pos.length) 0) 0)

/-- The committed tail of `move_atom` once the origin `i` and destination
`j` are fixed: bump `successful_moves` / `not_moved_moves`, occupy `j`,
update energies for the candidate shell and `[i, j]`, commit the snapshot
over the same index sets, and bump `move_accepted`. -/
def move_commit (V : Nat → List Bool → ℚ) (surf : Surface) (i j : Nat)
    (s : MCState) : MCState :=
  let s1 := if j ≠ i
            then { s with successful_moves := s.successful_moves + 1 }
            else { s with not_moved_moves := s.not_moved_moves + 1 }
  let s2 := { s1 with occ := (s.occ.set i false).set j true }
  let s3 := update_energy V surf (hop_cand surf i) s2
  let s4 := update_energy V surf [i, j] s3
  let s5 := keep_modification (hop_cand surf i) s4
  let s6 := keep_modification [i, j] s5
  { s6 with move_accepted := s6.move_accepted + 1 }

/-- `self.move_atom()`: bump `attempted_moves`, sample an occupied site
`i`, return early on the blocked-move check (encasing ring `nni[18:24]`
fully occupied, inner surroundings `nni[:18]` fully unoccupied, `i`
occupied), otherwise vacate `i`, draw the destination from the
Boltzmann-weighted candidates and commit.  `none` models the exceptions
raised on an empty occupied set, on a neighbour row shorter than the
3-entry first shell, and on an invalid probability vector. -/
def move_atom (V : Nat → List Bool → ℚ) (w : ℚ → ℚ) (surf : Surface)
    (ri rj : Nat) (s : MCState) : Option MCState :=
  let s0 := { s with attempted_moves := s.attempted_moves + 1 }
  if (occ_list surf s).length = 0 then none
  else
    let i := sampled_site surf s ri
    if blocked_cond surf s i
    then some { s0 with blocked_moves := s0.blocked_moves + 1 }
    else if (surf.nni i).length < 3 then none
    else
      match hop_select (hop_cand surf i)
              (hop_probs (hop_weights V w surf (s.occ.set i false) i)) rj with
      | none => none
      | some j => some (move_commit V surf i j s0)

/-- `self.prepopulate(fraction)` (and its variants): occupy the chosen set
`c` of sites, recompute the full energy vector over all sites, and commit a
snapshot over all sites; `c` models the random sample
`np.random.choice(all, size, replace=False)`. -/
def prepopulate (c : List Nat) (V : Nat → List Bool → ℚ) (surf : Surface)
    (s : MCState) : MCState :=
  let s1 := { s with add_prepopulated := c.length,
                     occ := c.foldl (fun a k => a.set k true) s.occ }
  let s2 := update_energy V surf (List.range surf.stlen) s1
  keep_modification (List.range surf.stlen) s2

/-- The diffusion loop of one step of `run_lap`:
`for i in range(moves_per_step * atoms_on_surface): move_atom()`, with the
`k`-th call drawing its two selection inputs from the stream `r`. -/
def do_moves (V : Nat → List Bool → ℚ) (w : ℚ → ℚ) (surf : Surface)
    (r : Nat → Nat × Nat) : Nat → Nat → MCState → Option MCState
  | _, 0, s => some s
  | k, n + 1, s =>
    match move_atom V w surf (r k).1 (r k).2 s with
    | none => none
    | some s1 => do_moves V w surf r (k + 1) n s1

/-- One step of `run_lap`: deposit when coverage is strictly below the
target, then perform `moves_per_step * atoms_on_surface` diffusion
attempts (with the occupied count read after the deposition), then bump
`total_steps`. -/
def run_step (V : Nat → List Bool → ℚ) (w : ℚ → ℚ) (surf : Surface)
    (target : ℚ) (mps : Nat) (rA : Nat → Nat) (rM : Nat → Nat × Nat)
    (s : MCState) : Option MCState :=
  match (if coverage s < target
         then (add_atom rA V surf s).map (fun t => t.2.2)
         else some s) with
  | none => none
  | some s1 =>
    match do_moves V w surf rM 0 (mps * atoms_on_surface s1) s1 with
    | none => none
    | some s2 => some { s2 with total_steps := s2.total_steps + 1 }

/-- `self.run_lap()`: execute `steps_per_lap` steps, step `k` drawing its
randomness from `rA k` / `rM k`. -/
def run_lap (V : Nat → List Bool → ℚ) (w : ℚ → ℚ) (surf : Surface)
    (target : ℚ) (mps : Nat) (rA : Nat → Nat → Nat)
    (rM : Nat → Nat → Nat × Nat) : Nat → Nat → MCState → Option MCState
  | _, 0, s => some s
  | k, n + 1, s =>
    match run_step V w surf target mps (rA k) (rM k) s with
    | none => none
    | some s1 => run_lap V w surf target mps rA rM (k + 1) n s1

/-- Well-formedness of the lattice-provider contract: every neighbour-row
entry of a valid site is a valid site index. -/
def SurfWf (surf : Surface) : Prop :=
  ∀ i, i < surf.stlen → ∀ k ∈ surf.nni i, k < surf.stlen

/-- The state vectors are sized to the lattice. -/
def StWf (surf : Surface) (s : MCState) : Prop :=
  s.occ.length = surf.stlen ∧ s.energies.length = surf.stlen

/-- Symmetry of the neighbour table (a property of the geometric contract):
`a` lists `b` iff `b` lists `a`. -/
def NeighborSymm (surf : Surface) : Prop :=
  ∀ a, a < surf.stlen → ∀ b, b < surf.stlen →
    (a ∈ surf.nni b ↔ b ∈ surf.nni a)

/-- Invariant: `energies[i] == 0` whenever `occ[i]` is false. -/
def EnergiesZero (surf : Surface) (s : MCState) : Prop :=
  ∀ k, k < surf.stlen → s.occ.getD k false = false → s.energies.getD k 0 = 0

/-- Invariant: `energies[i] == V(i, occ[nni[i]])` whenever `occ[i]` is
true. -/
def EnergiesConsistent (V : Nat → List Bool → ℚ) (surf : Surface)
    (s : MCState) : Prop :=
  ∀ k, k < surf.stlen → s.occ.getD k false = true →
    s.energies.getD k 0 = get_energy V surf s.occ k

instance (surf : Surface) (s : MCState) : Decidable (EnergiesZero surf s) := by
  unfold EnergiesZero
  infer_instance

instance (V : Nat → List Bool → ℚ) (surf : Surface) (s : MCState) :
    Decidable (EnergiesConsistent V surf s) := by
  unfold EnergiesConsistent
  infer_instance

instance (surf : Surface) : Decidable (NeighborSymm surf) := by
  unfold NeighborSymm
  infer_instance

instance (surf : Surface) : Decidable (SurfWf surf) := by
  unfold SurfWf
  infer_instance

instance (surf : Surface) (s : MCState) : Decidable (StWf surf s) := by
  unfold StWf
  infer_instance

/-! ### Basic list lemmas -/

theorem getD_set_self {α : Type} (l : List α) (i : Nat) (a d : α)
    (h : i < l.length) : (l.set i a).getD i d = a := by
  simp [List.getD_eq_getElem?_getD, List.getElem?_set_self h]

theorem getD_set_ne {α : Type} (l : List α) (i m : Nat) (a d : α)
    (h : i ≠ m) : (l.set i a).getD m d = l.getD m d := by
  simp [List.getD_eq_getElem?_getD, List.getElem?_set_ne h]

theorem getD_of_length_le {α : Type} (l : List α) (i : Nat) (d : α)
    (h : l.length ≤ i) : l.getD i d = d := by
  simp [List.getD_eq_getElem?_getD, List.getElem?_eq_none h]

theorem set_getD_self : ∀ (l : List Bool) (i : Nat),
    l.getD i false = true → l.set i true = l
  | [], _, h => by simp at h
  | x :: xs, 0, h => by simp_all
  | _ :: xs, i + 1, h => by
    simpa using set_getD_self xs i (by simpa using h)

theorem count_set_true : ∀ (l : List Bool) (i : Nat), i < l.length →
    l.getD i false = false → (l.set i true).count true = l.count true + 1
  | x :: xs, 0, _, h0 => by
    simp_all [List.count_cons]
  | x :: xs, i + 1, h, h0 => by
    have ih := count_set_true xs i (by simpa using h) (by simpa using h0)
    simp [List.count_cons, ih]
    omega

theorem count_set_false : ∀ (l : List Bool) (i : Nat), i < l.length →
    l.getD i false = true → l.count true = (l.set i false).count true + 1
  | x :: xs, 0, _, h0 => by
    simp_all [List.count_cons]
  | x :: xs, i + 1, h, h0 => by
    have ih := count_set_false xs i (by simpa using h) (by simpa using h0)
    simp [List.count_cons, ih]
    omega

theorem getD_mod_mem (l : List Nat) (h : l ≠ []) (n : Nat) :
    l.getD (n % l.length) 0 ∈ l := by
  have hlen : 0 < l.length := List.length_pos.2 h
  have hb : n % l.length < l.length := Nat.mod_lt _ hlen
  rw [List.getD_eq_getElem?_getD, List.getElem?_eq_getElem hb]
  exact List.getElem_mem hb

theorem getD_mem_of_lt {α : Type} (l : List α) (k : Nat) (d : α)
    (h : k < l.length) : l.getD k d ∈ l := by
  rw [List.getD_eq_getElem?_getD, List.getElem?_eq_getElem h]
  exact List.getElem_mem h

/-! ### Membership in the occupied / unoccupied index lists -/

theorem mem_occ_list (surf : Surface) (s : MCState) (i : Nat) :
    i ∈ occ_list surf s ↔ i < surf.stlen ∧ s.occ.getD i false = true := by
  simp [occ_list, List.mem_filter, List.mem_range]

theorem mem_not_occ_list (surf : Surface) (s : MCState) (i : Nat) :
    i ∈ not_occ_list surf s ↔
      i < surf.stlen ∧ s.occ.getD i false = false := by
  simp [not_occ_list, List.mem_filter, List.mem_range]

/-! ### Pointwise characterisation of the energy bookkeeping -/

theorem zero_pass_cons (occ : List Bool) (a : Nat) (t : List Nat)
    (es : List ℚ) :
    zero_pass occ (a :: t) es =
      zero_pass occ t (if occ.getD a false then es else es.set a 0) := rfl

theorem calc_pass_cons (V : Nat → List Bool → ℚ) (surf : Surface)
    (occ : List Bool) (a : Nat) (t : List Nat) (es : List ℚ) :
    calc_pass V surf occ (a :: t) es =
      calc_pass V surf occ t
        (if occ.getD a false then es.set a (get_energy V surf occ a) else es) :=
  rfl

theorem zero_pass_length (occ : List Bool) (idx : List Nat) (es : List ℚ) :
    (zero_pass occ idx es).length = es.length := by
  induction idx generalizing es with
  | nil => rfl
  | cons a t ih =>
    rw [zero_pass_cons, ih]
    split <;> simp

theorem calc_pass_length (V : Nat → List Bool → ℚ) (surf : Surface)
    (occ : List Bool) (idx : List Nat) (es : List ℚ) :
    (calc_pass V surf occ idx es).length = es.length := by
  induction idx generalizing es with
  | nil => rfl
  | cons a t ih =>
    rw [calc_pass_cons, ih]
    split <;> simp

theorem maskfold_getD (c : Nat → Bool) (g : Nat → ℚ) (idx : List Nat)
    (es : List ℚ) (k : Nat) :
    (idx.foldl (fun a i => if c i then a.set i (g i) else a) es).getD k 0 =
      if k ∈ idx ∧ c k = true ∧ k < es.length then g k
      else es.getD k 0 := by
  induction idx generalizing es with
  | nil => simp
  | cons a t ih =>
    rw [List.foldl_cons, ih]
    have hlen : (if c a then es.set a (g a) else es).length = es.length := by
      split <;> simp
    rw [hlen]
    by_cases hak : k = a
    · subst hak
      by_cases hc : c k
      · rw [if_pos hc]
        by_cases hb : k < es.length
        · rw [getD_set_self _ _ _ _ hb]
          simp [hc, hb]
        · rw [getD_of_length_le _ _ _ (by simpa using Nat.le_of_not_lt hb),
              getD_of_length_le _ _ _ (Nat.le_of_not_lt hb)]
          simp [hb]
      · rw [if_neg hc]
        have hc' : c k = false := by simpa using hc
        simp [hc']
    · have h2 : (if c a then es.set a (g a) else es).getD k 0 = es.getD k 0 := by
        split
        · exact getD_set_ne _ _ _ _ _ (fun h => hak h.symm)
        · rfl
      rw [h2]
      simp only [List.mem_cons, hak, false_or]

theorem zero_pass_eq_maskfold (occ : List Bool) (idx : List Nat)
    (es : List ℚ) :
    zero_pass occ idx es =
      idx.foldl (fun a i => if !(occ.getD i false) then a.set i 0 else a) es := by
  unfold zero_pass
  congr 1
  funext a i
  cases h : occ.getD i false <;> simp [h]

theorem zero_pass_getD (occ : List Bool) (idx : List Nat) (es : List ℚ)
    (k : Nat) :
    (zero_pass occ idx es).getD k 0 =
      if k ∈ idx ∧ occ.getD k false = false ∧ k < es.length then 0
      else es.getD k 0 := by
  rw [zero_pass_eq_maskfold,
      maskfold_getD (fun i => !(occ.getD i false)) (fun _ => 0)]
  simp only [Bool.not_eq_true']

theorem calc_pass_getD (V : Nat → List Bool → ℚ) (surf : Surface)
    (occ : List Bool) (idx : List Nat) (es : List ℚ) (k : Nat) :
    (calc_pass V surf occ idx es).getD k 0 =
      if k ∈ idx ∧ occ.getD k false = true ∧ k < es.length
      then get_energy V surf occ k
      else es.getD k 0 := by
  unfold calc_pass
  rw [maskfold_getD (fun i => occ.getD i false) (get_energy V surf occ)]

theorem update_energy_occ (V : Nat → List Bool → ℚ) (surf : Surface)
    (idx : List Nat) (s : MCState) :
    (update_energy V surf idx s).occ = s.occ := rfl

theorem update_energy_counters (V : Nat → List Bool → ℚ) (surf : Surface)
    (idx : List Nat) (s : MCState) :
    (update_energy V surf idx s).attempted_moves = s.attempted_moves ∧
    (update_energy V surf idx s).successful_moves = s.successful_moves ∧
    (update_energy V surf idx s).not_moved_moves = s.not_moved_moves ∧
    (update_energy V surf idx s).blocked_moves = s.blocked_moves ∧
    (update_energy V surf idx s).move_accepted = s.move_accepted ∧
    (update_energy V surf idx s).total_steps = s.total_steps :=
  ⟨rfl, rfl, rfl, rfl, rfl, rfl⟩

theorem update_energy_sum (V : Nat → List Bool → ℚ) (surf : Surface)
    (idx : List Nat) (s : MCState) :
    (update_energy V surf idx s).energy =
      (update_energy V surf idx s).energies.sum := rfl

theorem update_energy_length (V : Nat → List Bool → ℚ) (surf : Surface)
    (idx : List Nat) (s : MCState) :
    (update_energy V surf idx s).energies.length = s.energies.length := by
  show (calc_pass V surf s.occ idx (zero_pass s.occ idx s.energies)).length = _
  rw [calc_pass_length, zero_pass_length]

theorem update_energy_getD (V : Nat → List Bool → ℚ) (surf : Surface)
    (idx : List Nat) (s : MCState) (k : Nat) :
    (update_energy V surf idx s).energies.getD k 0 =
      if k ∈ idx ∧ k < s.energies.length
      then (if s.occ.getD k false then get_energy V surf s.occ k else 0)
      else s.energies.getD k 0 := by
  show (calc_pass V surf s.occ idx (zero_pass s.occ idx s.energies)).getD k 0 = _
  rw [calc_pass_getD, zero_pass_length, zero_pass_getD]
  by_cases hm : k ∈ idx
  · by_cases hb : k < s.energies.length
    · cases ho : s.occ.getD k false <;> simp [hm, hb, ho]
    · simp [hb]
  · simp [hm]

theorem keep_modification_occ (idx : List Nat) (s : MCState) :
    (keep_modification idx s).occ = s.occ := rfl

theorem keep_modification_energies (idx : List Nat) (s : MCState) :
    (keep_modification idx s).energies = s.energies := rfl

theorem keep_modification_energy (idx : List Nat) (s : MCState) :
    (keep_modification idx s).energy = s.energy := rfl

theorem keep_modification_counters (idx : List Nat) (s : MCState) :
    (keep_modification idx s).attempted_moves = s.attempted_moves ∧
    (keep_modification idx s).successful_moves = s.successful_moves ∧
    (keep_modification idx s).not_moved_moves = s.not_moved_moves ∧
    (keep_modification idx s).blocked_moves = s.blocked_moves ∧
    (keep_modification idx s).move_accepted = s.move_accepted ∧
    (keep_modification idx s).total_steps = s.total_steps :=
  ⟨rfl, rfl, rfl, rfl, rfl, rfl⟩

/-! ### Facts about the deposition search -/

theorem add_search_zero (pick : Nat → Nat) (cands : List Nat)
    (good : Nat → Bool) (n : Nat) :
    add_search pick cands good n 0 =
      (cands.getD (pick n % cands.length) 0,
       good (cands.getD (pick n % cands.length) 0)) := rfl

theorem add_search_succ (pick : Nat → Nat) (cands : List Nat)
    (good : Nat → Bool) (n fuel : Nat) :
    add_search pick cands good n (fuel + 1) =
      if good (cands.getD (pick n % cands.length) 0)
      then (cands.getD (pick n % cands.length) 0, true)
      else add_search pick cands good (n + 1) fuel := rfl

theorem add_search_mem (pick : Nat → Nat) (cands : List Nat)
    (good : Nat → Bool) (h : cands ≠ []) :
    ∀ (n fuel : Nat), (add_search pick cands good n fuel).1 ∈ cands := by
  intro n fuel
  induction fuel generalizing n with
  | zero =>
    rw [add_search_zero]
    exact getD_mod_mem cands h (pick n)
  | succ fuel ih =>
    rw [add_search_succ]
    split
    · exact getD_mod_mem cands h (pick n)
    · exact ih (n + 1)

theorem add_search_good (pick : Nat → Nat) (cands : List Nat)
    (good : Nat → Bool) :
    ∀ (n fuel : Nat), (add_search pick cands good n fuel).2 = true →
      good (add_search pick cands good n fuel).1 = true := by
  intro n fuel
  induction fuel generalizing n with
  | zero =>
    rw [add_search_zero]
    exact fun h => h
  | succ fuel ih =>
    rw [add_search_succ]
    split
    · intro _
      assumption
    · exact ih (n + 1)

/-- Master characterisation of a completed `add_atom` call: the unoccupied
set was nonempty, the chosen site is the search result, and the final state
is the two-stage energy update of the state with the chosen site set. -/
theorem add_atom_cases (pick : Nat → Nat) (V : Nat → List Bool → ℚ)
    (surf : Surface) (s : MCState) (i : Nat) (b : Bool) (s' : MCState)
    (h : add_atom pick V surf s = some (i, b, s')) :
    not_occ_list surf s ≠ [] ∧
    i = (add_search pick (not_occ_list surf s) (add_good surf s) 0
          (surf.stlen - 1)).1 ∧
    b = (add_search pick (not_occ_list surf s) (add_good surf s) 0
          (surf.stlen - 1)).2 ∧
    s' = update_energy V surf [i]
          (update_energy V surf (surf.nni i)
            { s with occ := s.occ.set i true }) := by
  unfold add_atom at h
  by_cases hne : (not_occ_list surf s).length = 0
  · rw [if_pos hne] at h
    exact absurd h (by simp)
  · rw [if_neg hne] at h
    simp only [Option.some.injEq, Prod.mk.injEq] at h
    obtain ⟨hi, hb, hs⟩ := h
    subst hi
    exact ⟨fun hc => hne (by simp [hc]), rfl, hb.symm, hs.symm⟩

/-- A completed `add_atom` call chose a site that was unoccupied at entry,
below `stlen`, and set exactly that site. -/
theorem add_atom_found (pick : Nat → Nat) (V : Nat → List Bool → ℚ)
    (surf : Surface) (s : MCState) (i : Nat) (b : Bool) (s' : MCState)
    (h : add_atom pick V surf s = some (i, b, s')) :
    i < surf.stlen ∧ s.occ.getD i false = false ∧
    s'.occ = s.occ.set i true := by
  obtain ⟨hne, hi, _, hs⟩ := add_atom_cases pick V surf s i b s' h
  have hmem : i ∈ not_occ_list surf s := by
    rw [hi]
    exact add_search_mem pick _ _ hne 0 (surf.stlen - 1)
  obtain ⟨hlt, hocc⟩ := (mem_not_occ_list surf s i).1 hmem
  refine ⟨hlt, hocc, ?_⟩
  rw [hs, update_energy_occ, update_energy_occ]

/-- A completed `add_atom` call grows the occupied count by exactly one. -/
theorem add_atom_count (pick : Nat → Nat) (V : Nat → List Bool → ℚ)
    (surf : Surface) (s : MCState) (i : Nat) (b : Bool) (s' : MCState)
    (hlen : s.occ.length = surf.stlen)
    (h : add_atom pick V surf s = some (i, b, s')) :
    atoms_on_surface s' = atoms_on_surface s + 1 ∧
    s'.occ.length = s.occ.length := by
  obtain ⟨hlt, hocc, hs⟩ := add_atom_found pick V surf s i b s' h
  constructor
  · show s'.occ.count true = _
    rw [hs]
    exact count_set_true s.occ i (hlen ▸ hlt) hocc
  · rw [hs]
    simp

/-! ### Facts about the hop selection -/

theorem getD_eq_getElem {α : Type} (l : List α) (k : Nat) (d : α)
    (h : k < l.length) : l.getD k d = l[k] := by
  rw [List.getD_eq_getElem?_getD, List.getElem?_eq_getElem h]
  rfl

theorem hop_cand_length (surf : Surface) (i : Nat) :
    (hop_cand surf i).length = ((surf.nni i).take 3).length + 1 := by
  simp [hop_cand]

theorem hop_weights_length (V : Nat → List Bool → ℚ) (w : ℚ → ℚ)
    (surf : Surface) (occ1 : List Bool) (i : Nat) :
    (hop_weights V w surf occ1 i).length = (hop_cand surf i).length := by
  simp [hop_weights, hop_masked, hop_raw, hop_nne, hop_occ]

theorem hop_probs_length (pm : List ℚ) :
    (hop_probs pm).length = pm.length := by
  simp [hop_probs]

theorem hop_weights_getElem (V : Nat → List Bool → ℚ) (w : ℚ → ℚ)
    (surf : Surface) (occ1 : List Bool) (i k : Nat)
    (hk : k < (hop_weights V w surf occ1 i).length) :
    (hop_weights V w surf occ1 i)[k] =
      if occ1.getD ((hop_cand surf i).getD k 0) false = true then 0
      else w (if occ1.getD ((hop_cand surf i).getD k 0) false then 0
              else get_energy V surf occ1 ((hop_cand surf i).getD k 0)) := by
  have hk' : k < (hop_cand surf i).length := by
    rw [hop_weights_length] at hk
    exact hk
  show (hop_masked (hop_raw w (hop_nne V surf occ1 (hop_cand surf i)))
        (hop_occ occ1 (hop_cand surf i)))[k] = _
  simp only [hop_masked, hop_raw, hop_nne, hop_occ]
  rw [List.getElem_zipWith, List.getElem_map, List.getElem_map,
      List.getElem_map]
  rw [getD_eq_getElem _ _ _ hk']

theorem hop_probs_getD (pm : List ℚ) (k : Nat) (hk : k < pm.length) :
    (hop_probs pm).getD k 0 = pm.getD k 0 / pm.sum := by
  rw [hop_probs, getD_eq_getElem _ _ _ (by simpa using hk),
      List.getElem_map, getD_eq_getElem _ _ _ hk]

/-- A destination drawn by `hop_select` from the hop distribution is always
unoccupied in the vacated occupancy, and lies in `{i} ∪ nni[i][:3]`. -/
theorem hop_select_facts (V : Nat → List Bool → ℚ) (w : ℚ → ℚ)
    (surf : Surface) (occ1 : List Bool) (i rj j : Nat)
    (h : hop_select (hop_cand surf i)
          (hop_probs (hop_weights V w surf occ1 i)) rj = some j) :
    occ1.getD j false = false ∧ (j = i ∨ j ∈ (surf.nni i).take 3) := by
  unfold hop_select at h
  by_cases hp : (hop_pos (hop_probs (hop_weights V w surf occ1 i))).length = 0
  · rw [if_pos hp] at h
    exact absurd h (by simp)
  · rw [if_neg hp] at h
    simp only [Option.some.injEq] at h
    have hpos_ne : hop_pos (hop_probs (hop_weights V w surf occ1 i)) ≠ [] := by
      intro hc
      exact hp (by simp [hc])
    set pos := hop_pos (hop_probs (hop_weights V w surf occ1 i)) with hposdef
    have hk0 : pos.getD (rj % pos.length) 0 ∈ pos :=
      getD_mod_mem pos hpos_ne rj
    set k0 := pos.getD (rj % pos.length) 0 with hk0def
    rw [hposdef, hop_pos, List.mem_filter, List.mem_range] at hk0
    obtain ⟨hk0lt, hk0pos⟩ := hk0
    have hk0pos' : 0 < (hop_probs (hop_weights V w surf occ1 i)).getD k0 0 :=
      of_decide_eq_true hk0pos
    have hk0pm : k0 < (hop_weights V w surf occ1 i).length := by
      rw [hop_probs_length] at hk0lt
      exact hk0lt
    have hk0cand : k0 < (hop_cand surf i).length := by
      rw [hop_weights_length] at hk0pm
      exact hk0pm
    rw [hop_probs_getD _ _ hk0pm] at hk0pos'
    have hpm_ne : (hop_weights V w surf occ1 i).getD k0 0 ≠ 0 := by
      intro hc
      rw [hc, zero_div] at hk0pos'
      exact lt_irrefl 0 hk0pos'
    rw [getD_eq_getElem _ _ _ hk0pm, hop_weights_getElem V w surf occ1 i k0 hk0pm]
      at hpm_ne
    have hocc : occ1.getD ((hop_cand surf i).getD k0 0) false = false := by
      by_cases hoc : occ1.getD ((hop_cand surf i).getD k0 0) false = true
      · rw [if_pos hoc] at hpm_ne
        exact absurd rfl hpm_ne
      · simpa using hoc
    have hj : j = (hop_cand surf i).getD k0 0 := h.symm
    constructor
    · rw [hj]
      exact hocc
    · have hmem : j ∈ hop_cand surf i := by
        rw [hj]
        exact getD_mem_of_lt _ _ _ hk0cand
      rw [hop_cand, List.mem_cons] at hmem
      exact hmem

/-! ### Facts about the committed diffusion step -/

theorem update_twice_getD (V : Nat → List Bool → ℚ) (surf : Surface)
    (idx1 idx2 : List Nat) (s : MCState) (k : Nat) :
    (update_energy V surf idx2 (update_energy V surf idx1 s)).energies.getD k 0 =
      if k ∈ idx2 ∧ k < s.energies.length
      then (if s.occ.getD k false then get_energy V surf s.occ k else 0)
      else if k ∈ idx1 ∧ k < s.energies.length
      then (if s.occ.getD k false then get_energy V surf s.occ k else 0)
      else s.energies.getD k 0 := by
  rw [update_energy_getD, update_energy_length, update_energy_occ,
      update_energy_getD]

theorem move_commit_occ (V : Nat → List Bool → ℚ) (surf : Surface)
    (i j : Nat) (s : MCState) :
    (move_commit V surf i j s).occ = (s.occ.set i false).set j true := by
  unfold move_commit
  split <;> rfl

theorem move_commit_attempted (V : Nat → List Bool → ℚ) (surf : Surface)
    (i j : Nat) (s : MCState) :
    (move_commit V surf i j s).attempted_moves = s.attempted_moves := by
  unfold move_commit
  split <;> rfl

theorem move_commit_successful (V : Nat → List Bool → ℚ) (surf : Surface)
    (i j : Nat) (s : MCState) :
    (move_commit V surf i j s).successful_moves =
      (if j ≠ i then s.successful_moves + 1 else s.successful_moves) := by
  unfold move_commit
  split <;> rfl

theorem move_commit_not_moved (V : Nat → List Bool → ℚ) (surf : Surface)
    (i j : Nat) (s : MCState) :
    (move_commit V surf i j s).not_moved_moves =
      (if j ≠ i then s.not_moved_moves else s.not_moved_moves + 1) := by
  unfold move_commit
  split <;> rfl

theorem move_commit_blocked (V : Nat → List Bool → ℚ) (surf : Surface)
    (i j : Nat) (s : MCState) :
    (move_commit V surf i j s).blocked_moves = s.blocked_moves := by
  unfold move_commit
  split <;> rfl

theorem move_commit_total_steps (V : Nat → List Bool → ℚ) (surf : Surface)
    (i j : Nat) (s : MCState) :
    (move_commit V surf i j s).total_steps = s.total_steps := by
  unfold move_commit
  split <;> rfl

theorem move_commit_sum (V : Nat → List Bool → ℚ) (surf : Surface)
    (i j : Nat) (s : MCState) :
    (move_commit V surf i j s).energy =
      (move_commit V surf i j s).energies.sum := by
  unfold move_commit
  split <;> rfl

theorem move_commit_energies_length (V : Nat → List Bool → ℚ)
    (surf : Surface) (i j : Nat) (s : MCState) :
    (move_commit V surf i j s).energies.length = s.energies.length := by
  unfold move_commit
  split <;>
    (show (update_energy V surf [i, j]
            (update_energy V surf (hop_cand surf i) _)).energies.length = _
     rw [update_energy_length, update_energy_length])

theorem move_commit_energies_getD (V : Nat → List Bool → ℚ) (surf : Surface)
    (i j : Nat) (s : MCState) (k : Nat) :
    (move_commit V surf i j s).energies.getD k 0 =
      (if k ∈ [i, j] ∧ k < s.energies.length
       then (if ((s.occ.set i false).set j true).getD k false
             then get_energy V surf ((s.occ.set i false).set j true) k else 0)
       else if k ∈ hop_cand surf i ∧ k < s.energies.length
       then (if ((s.occ.set i false).set j true).getD k false
             then get_energy V surf ((s.occ.set i false).set j true) k else 0)
       else s.energies.getD k 0) := by
  unfold move_commit
  split
  · show (update_energy V surf [i, j]
      (update_energy V surf (hop_cand surf i)
        { s with successful_moves := s.successful_moves + 1,
                 occ := (s.occ.set i false).set j true })).energies.getD k 0 = _
    rw [update_twice_getD]
  · show (update_energy V surf [i, j]
      (update_energy V surf (hop_cand surf i)
        { s with not_moved_moves := s.not_moved_moves + 1,
                 occ := (s.occ.set i false).set j true })).energies.getD k 0 = _
    rw [update_twice_getD]

/-- Master characterisation of a completed `move_atom` call: the occupied
set was nonempty, and the call either took the blocked branch (bumping only
`attempted_moves` and `blocked_moves`) or committed a hop to a selected
destination. -/
theorem move_atom_cases (V : Nat → List Bool → ℚ) (w : ℚ → ℚ)
    (surf : Surface) (ri rj : Nat) (s s' : MCState)
    (h : move_atom V w surf ri rj s = some s') :
    occ_list surf s ≠ [] ∧
    ((blocked_cond surf s (sampled_site surf s ri) = true ∧
      s' = { s with attempted_moves := s.attempted_moves + 1,
                    blocked_moves := s.blocked_moves + 1 }) ∨
     (blocked_cond surf s (sampled_site surf s ri) = false ∧
      3 ≤ (surf.nni (sampled_site surf s ri)).length ∧
      ∃ j, hop_select (hop_cand surf (sampled_site surf s ri))
             (hop_probs (hop_weights V w surf
               (s.occ.set (sampled_site surf s ri) false)
               (sampled_site surf s ri))) rj = some j ∧
           s' = move_commit V surf (sampled_site surf s ri) j
                  { s with attempted_moves := s.attempted_moves + 1 })) := by
  simp only [move_atom] at h
  split at h
  · exact absurd h (by simp)
  · rename_i h0
    have hne : occ_list surf s ≠ [] := by
      intro hc
      exact h0 (by rw [hc]; rfl)
    refine ⟨hne, ?_⟩
    split at h
    · rename_i hb
      exact Or.inl ⟨hb, (Option.some.inj h).symm⟩
    · rename_i hb
      split at h
      · exact absurd h (by simp)
      · rename_i h3
        refine Or.inr ⟨by simpa using hb, by omega, ?_⟩
        cases hsel : hop_select (hop_cand surf (sampled_site surf s ri))
            (hop_probs (hop_weights V w surf
              (s.occ.set (sampled_site surf s ri) false)
              (sampled_site surf s ri))) rj with
        | none =>
          rw [hsel] at h
          exact absurd h (by simp)
        | some j =>
          rw [hsel] at h
          exact ⟨j, rfl, (Option.some.inj h).symm⟩

theorem sampled_site_occupied (surf : Surface) (s : MCState) (ri : Nat)
    (h : occ_list surf s ≠ []) :
    sampled_site surf s ri < surf.stlen ∧
    s.occ.getD (sampled_site surf s ri) false = true :=
  (mem_occ_list surf s _).1 (getD_mod_mem _ h ri)

/-- Occupancy shape of a completed `move_atom` call: either unchanged, or a
single particle moved from an occupied `i` to an unoccupied `j` in `i`'s
first shell. -/
theorem move_atom_occ (V : Nat → List Bool → ℚ) (w : ℚ → ℚ)
    (surf : Surface) (ri rj : Nat) (s s' : MCState)
    (hlen : s.occ.length = surf.stlen) (hwf : SurfWf surf)
    (h : move_atom V w surf ri rj s = some s') :
    s'.occ = s.occ ∨
    ∃ i j, i < surf.stlen ∧ j < surf.stlen ∧
      s.occ.getD i false = true ∧ s.occ.getD j false = false ∧ j ≠ i ∧
      j ∈ (surf.nni i).take 3 ∧
      s'.occ = (s.occ.set i false).set j true := by
  obtain ⟨hne, hcase⟩ := move_atom_cases V w surf ri rj s s' h
  obtain ⟨hilt, hiocc⟩ := sampled_site_occupied surf s ri hne
  cases hcase with
  | inl hblk =>
    left
    rw [hblk.2]
  | inr hmain =>
    obtain ⟨_, _, j, hsel, hs'⟩ := hmain
    obtain ⟨hocc1j, hji⟩ := hop_select_facts V w surf
      (s.occ.set (sampled_site surf s ri) false) (sampled_site surf s ri)
      rj j hsel
    by_cases hj : j = sampled_site surf s ri
    · left
      rw [hs', move_commit_occ, hj, List.set_set]
      exact set_getD_self s.occ _ hiocc
    · right
      have hjmem : j ∈ (surf.nni (sampled_site surf s ri)).take 3 := by
        cases hji with
        | inl hc => exact absurd hc hj
        | inr hc => exact hc
      have hjlt : j < surf.stlen :=
        hwf _ hilt j (List.mem_of_mem_take hjmem)
      have hjocc : s.occ.getD j false = false := by
        rw [← getD_set_ne s.occ (sampled_site surf s ri) j false false
              (fun hc => hj hc.symm)]
        exact hocc1j
      exact ⟨sampled_site surf s ri, j, hilt, hjlt, hiocc, hjocc, hj, hjmem,
        by rw [hs', move_commit_occ]⟩

/-- Counter behaviour of a completed `move_atom` call: `attempted_moves`
bumps by one, and exactly one of `blocked_moves`, `successful_moves`,
`not_moved_moves` bumps by one. -/
theorem move_atom_counters (V : Nat → List Bool → ℚ) (w : ℚ → ℚ)
    (surf : Surface) (ri rj : Nat) (s s' : MCState)
    (h : move_atom V w surf ri rj s = some s') :
    s'.attempted_moves = s.attempted_moves + 1 ∧
    ((s'.blocked_moves = s.blocked_moves + 1 ∧
      s'.successful_moves = s.successful_moves ∧
      s'.not_moved_moves = s.not_moved_moves) ∨
     (s'.successful_moves = s.successful_moves + 1 ∧
      s'.blocked_moves = s.blocked_moves ∧
      s'.not_moved_moves = s.not_moved_moves) ∨
     (s'.not_moved_moves = s.not_moved_moves + 1 ∧
      s'.blocked_moves = s.blocked_moves ∧
      s'.successful_moves = s.successful_moves)) ∧
    s'.total_steps = s.total_steps := by
  obtain ⟨_, hcase⟩ := move_atom_cases V w surf ri rj s s' h
  cases hcase with
  | inl hblk =>
    rw [hblk.2]
    exact ⟨rfl, Or.inl ⟨rfl, rfl, rfl⟩, rfl⟩
  | inr hmain =>
    obtain ⟨_, _, j, _, hs'⟩ := hmain
    rw [hs']
    refine ⟨move_commit_attempted V surf _ j _, ?_,
      move_commit_total_steps V surf _ j _⟩
    by_cases hj : j = sampled_site surf s ri
    · refine Or.inr (Or.inr ?_)
      rw [move_commit_not_moved, move_commit_blocked, move_commit_successful,
        if_neg (by simpa using hj), if_neg (by simpa using hj)]
      exact ⟨rfl, rfl, rfl⟩
    · refine Or.inr (Or.inl ?_)
      rw [move_commit_not_moved, move_commit_blocked, move_commit_successful,
        if_pos hj, if_pos hj]
      exact ⟨rfl, rfl, rfl⟩

/-- A completed `move_atom` call preserves the occupied count and the
occupancy length. -/
theorem move_atom_atoms (V : Nat → List Bool → ℚ) (w : ℚ → ℚ)
    (surf : Surface) (ri rj : Nat) (s s' : MCState)
    (hlen : s.occ.length = surf.stlen) (hwf : SurfWf surf)
    (h : move_atom V w surf ri rj s = some s') :
    atoms_on_surface s' = atoms_on_surface s ∧
    s'.occ.length = s.occ.length := by
  cases move_atom_occ V w surf ri rj s s' hlen hwf h with
  | inl heq =>
    rw [show atoms_on_surface s' = s'.occ.count true from rfl, heq]
    exact ⟨rfl, rfl⟩
  | inr hmove =>
    obtain ⟨i, j, hilt, hjlt, hiocc, hjocc, hji, _, hocc'⟩ := hmove
    have hocc1j : (s.occ.set i false).getD j false = false := by
      rw [getD_set_ne s.occ i j false false (fun hc => hji hc.symm)]
      exact hjocc
    have h1 : s.occ.count true = (s.occ.set i false).count true + 1 :=
      count_set_false s.occ i (hlen ▸ hilt) hiocc
    have h2 : ((s.occ.set i false).set j true).count true =
        (s.occ.set i false).count true + 1 :=
      count_set_true (s.occ.set i false) j (by simpa [hlen] using hjlt) hocc1j
    constructor
    · show s'.occ.count true = s.occ.count true
      rw [hocc', h2, h1]
    · rw [hocc']
      simp

/-! ### Facts about the step and lap drivers -/

theorem add_atom_preserves (pick : Nat → Nat) (V : Nat → List Bool → ℚ)
    (surf : Surface) (s : MCState) (i : Nat) (b : Bool) (s' : MCState)
    (h : add_atom pick V surf s = some (i, b, s')) :
    s'.attempted_moves = s.attempted_moves ∧
    s'.successful_moves = s.successful_moves ∧
    s'.not_moved_moves = s.not_moved_moves ∧
    s'.blocked_moves = s.blocked_moves ∧
    s'.total_steps = s.total_steps := by
  obtain ⟨_, _, _, hs⟩ := add_atom_cases pick V surf s i b s' h
  rw [hs]
  exact ⟨rfl, rfl, rfl, rfl, rfl⟩

theorem do_moves_spec (V : Nat → List Bool → ℚ) (w : ℚ → ℚ)
    (surf : Surface) (r : Nat → Nat × Nat) :
    ∀ (n k : Nat) (s s' : MCState), s.occ.length = surf.stlen →
    SurfWf surf → do_moves V w surf r k n s = some s' →
    atoms_on_surface s' = atoms_on_surface s ∧
    s'.occ.length = s.occ.length ∧
    s'.attempted_moves = s.attempted_moves + n ∧
    s'.total_steps = s.total_steps := by
  intro n
  induction n with
  | zero =>
    intro k s s' _ _ h
    have hs : s = s' := Option.some.inj h
    rw [← hs]
    exact ⟨rfl, rfl, rfl, rfl⟩
  | succ n ih =>
    intro k s s' hlen hwf h
    simp only [do_moves] at h
    cases hm : move_atom V w surf (r k).1 (r k).2 s with
    | none =>
      rw [hm] at h
      exact absurd h (by simp)
    | some s1 =>
      rw [hm] at h
      obtain ⟨ha1, hl1⟩ := move_atom_atoms V w surf (r k).1 (r k).2 s s1
        hlen hwf hm
      obtain ⟨hatt1, _, hts1⟩ := move_atom_counters V w surf (r k).1 (r k).2
        s s1 hm
      obtain ⟨ha2, hl2, hatt2, hts2⟩ := ih (k + 1) s1 s'
        (by rw [hl1, hlen]) hwf h
      refine ⟨by rw [ha2, ha1], by rw [hl2, hl1], ?_, by rw [hts2, hts1]⟩
      rw [hatt2, hatt1]
      omega

theorem run_step_spec (V : Nat → List Bool → ℚ) (w : ℚ → ℚ)
    (surf : Surface) (target : ℚ) (mps : Nat) (rA : Nat → Nat)
    (rM : Nat → Nat × Nat) (s s' : MCState)
    (hlen : s.occ.length = surf.stlen) (hwf : SurfWf surf)
    (h : run_step V w surf target mps rA rM s = some s') :
    s'.occ.length = s.occ.length ∧
    (coverage s < target →
      atoms_on_surface s' = atoms_on_surface s + 1 ∧
      s'.attempted_moves =
        s.attempted_moves + mps * (atoms_on_surface s + 1)) ∧
    (¬ coverage s < target →
      atoms_on_surface s' = atoms_on_surface s ∧
      s'.attempted_moves = s.attempted_moves + mps * atoms_on_surface s) ∧
    s'.total_steps = s.total_steps + 1 := by
  unfold run_step at h
  by_cases hc : coverage s < target
  · rw [if_pos hc] at h
    cases ha : add_atom rA V surf s with
    | none =>
      rw [ha] at h
      exact absurd h (by simp)
    | some t =>
      rw [ha] at h
      simp only [Option.map_some'] at h
      obtain ⟨hcount, hlen1⟩ := add_atom_count rA V surf s t.1 t.2.1 t.2.2
        hlen (by rw [ha])
      obtain ⟨hatt1, _, _, _, hts1⟩ := add_atom_preserves rA V surf s
        t.1 t.2.1 t.2.2 (by rw [ha])
      cases hd : do_moves V w surf rM 0 (mps * atoms_on_surface t.2.2)
          t.2.2 with
      | none =>
        rw [hd] at h
        exact absurd h (by simp)
      | some s2 =>
        rw [hd] at h
        simp only [Option.some.injEq] at h
        obtain ⟨ha2, hl2, hatt2, hts2⟩ := do_moves_spec V w surf rM _ 0
          t.2.2 s2 (by rw [hlen1, hlen]) hwf hd
        have hocc' : s'.occ = s2.occ := by rw [← h]
        have hatt' : s'.attempted_moves = s2.attempted_moves := by rw [← h]
        have hts' : s'.total_steps = s2.total_steps + 1 := by rw [← h]
        refine ⟨?_, fun _ => ⟨?_, ?_⟩, fun hnc => absurd hc hnc, ?_⟩
        · rw [hocc', hl2, hlen1]
        · show s'.occ.count true = _
          rw [hocc']
          rw [show s2.occ.count true = atoms_on_surface s2 from rfl, ha2,
            hcount]
        · rw [hatt', hatt2, hatt1, hcount]
        · rw [hts', hts2, hts1]
  · rw [if_neg hc] at h
    have h2 : (match do_moves V w surf rM 0 (mps * atoms_on_surface s) s with
               | none => none
               | some s2 =>
                 some { s2 with total_steps := s2.total_steps + 1 }) =
        some s' := h
    cases hd : do_moves V w surf rM 0 (mps * atoms_on_surface s) s with
    | none =>
      rw [hd] at h2
      exact absurd h2 (by simp)
    | some s2 =>
      rw [hd] at h2
      simp only [Option.some.injEq] at h2
      rename' h2 => h
      obtain ⟨ha2, hl2, hatt2, hts2⟩ := do_moves_spec V w surf rM _ 0 s s2
        hlen hwf hd
      have hocc' : s'.occ = s2.occ := by rw [← h]
      have hatt' : s'.attempted_moves = s2.attempted_moves := by rw [← h]
      have hts' : s'.total_steps = s2.total_steps + 1 := by rw [← h]
      refine ⟨by rw [hocc', hl2], fun hcc => absurd hcc hc,
        fun _ => ⟨?_, ?_⟩, by rw [hts', hts2]⟩
      · show s'.occ.count true = _
        rw [hocc']
        exact ha2
      · rw [hatt', hatt2]

theorem run_lap_atoms (V : Nat → List Bool → ℚ) (w : ℚ → ℚ)
    (surf : Surface) (target : ℚ) (mps : Nat) (rA : Nat → Nat → Nat)
    (rM : Nat → Nat → Nat × Nat) :
    ∀ (n k : Nat) (s s'' : MCState), s.occ.length = surf.stlen →
    SurfWf surf → run_lap V w surf target mps rA rM k n s = some s'' →
    atoms_on_surface s ≤ atoms_on_surface s'' ∧
    s''.occ.length = s.occ.length := by
  intro n
  induction n with
  | zero =>
    intro k s s'' _ _ h
    have hs : s = s'' := Option.some.inj h
    rw [← hs]
    exact ⟨Nat.le_refl _, rfl⟩
  | succ n ih =>
    intro k s s'' hlen hwf h
    simp only [run_lap] at h
    cases hstep : run_step V w surf target mps (rA k) (rM k) s with
    | none =>
      rw [hstep] at h
      exact absurd h (by simp)
    | some s1 =>
      rw [hstep] at h
      obtain ⟨hl1, hbelow, habove, _⟩ := run_step_spec V w surf target mps
        (rA k) (rM k) s s1 hlen hwf hstep
      have hle1 : atoms_on_surface s ≤ atoms_on_surface s1 := by
        by_cases hc : coverage s < target
        · rw [(hbelow hc).1]
          omega
        · rw [(habove hc).1]
      obtain ⟨hle2, hl2⟩ := ih (k + 1) s1 s'' (by rw [hl1, hlen]) hwf h
      exact ⟨Nat.le_trans hle1 hle2, by rw [hl2, hl1]⟩

theorem coverage_mono (s s'' : MCState)
    (hlen : s''.occ.length = s.occ.length)
    (hc : atoms_on_surface s ≤ atoms_on_surface s'') :
    coverage s ≤ coverage s'' := by
  unfold coverage
  rw [hlen]
  by_cases h0 : (s.occ.length : ℚ) = 0
  · rw [h0, div_zero, div_zero]
  · have hpos : (0 : ℚ) < (s.occ.length : ℚ) :=
      lt_of_le_of_ne (Nat.cast_nonneg _) (Ne.symm h0)
    exact (div_le_div_iff_of_pos_right hpos).2 (Nat.cast_le.2 hc)

/-! ### Preservation of the energy invariants -/

theorem foldl_set_true_length (c : List Nat) (occ : List Bool) :
    (c.foldl (fun a k => a.set k true) occ).length = occ.length := by
  induction c generalizing occ with
  | nil => rfl
  | cons a t ih =>
    rw [List.foldl_cons, ih]
    simp

/-- `add_atom` preserves the aggregate-sum identity, the unoccupied-zero
invariant and the state sizing, needing only those invariants at entry; and
when the neighbour table is symmetric it additionally preserves the
potential-consistency invariant (thanks to the full-row update). -/
theorem add_atom_inv (pick : Nat → Nat) (V : Nat → List Bool → ℚ)
    (surf : Surface) (s : MCState) (i : Nat) (b : Bool) (s' : MCState)
    (hwf : StWf surf s) (hz : EnergiesZero surf s)
    (h : add_atom pick V surf s = some (i, b, s')) :
    s'.energy = s'.energies.sum ∧ EnergiesZero surf s' ∧ StWf surf s' ∧
    (NeighborSymm surf → EnergiesConsistent V surf s →
      EnergiesConsistent V surf s') := by
  obtain ⟨hne, _, _, hs⟩ := add_atom_cases pick V surf s i b s' h
  obtain ⟨hilt, hiocc, hocc'⟩ := add_atom_found pick V surf s i b s' h
  have hgetD : ∀ k, s'.energies.getD k 0 =
      if k ∈ [i] ∧ k < s.energies.length
      then (if (s.occ.set i true).getD k false
            then get_energy V surf (s.occ.set i true) k else 0)
      else if k ∈ surf.nni i ∧ k < s.energies.length
      then (if (s.occ.set i true).getD k false
            then get_energy V surf (s.occ.set i true) k else 0)
      else s.energies.getD k 0 := by
    intro k
    rw [hs]
    exact update_twice_getD V surf (surf.nni i) [i]
      { s with occ := s.occ.set i true } k
  have hocciA : (s.occ.set i true).getD i false = true :=
    getD_set_self s.occ i true false (hwf.1 ▸ hilt)
  have hlen' : s'.energies.length = s.energies.length := by
    rw [hs, update_energy_length, update_energy_length]
  refine ⟨by rw [hs]; exact update_energy_sum V surf [i] _, ?_, ?_, ?_⟩
  · intro k hk hkocc
    rw [hocc'] at hkocc
    have hki : k ≠ i := by
      intro hc2
      rw [hc2, hocciA] at hkocc
      exact Bool.true_eq_false ▸ (by simpa using hkocc)
    rw [hgetD k]
    by_cases hm1 : k ∈ [i]
    · exact absurd (by simpa using hm1) hki
    · rw [if_neg (fun hcc => hm1 hcc.1)]
      by_cases hm2 : k ∈ surf.nni i ∧ k < s.energies.length
      · rw [if_pos hm2, if_neg (by rw [hkocc]; simp)]
      · rw [if_neg hm2]
        have hks : s.occ.getD k false = false := by
          rw [← getD_set_ne s.occ i k true false (fun hc2 => hki hc2.symm)]
          exact hkocc
        exact hz k hk hks
  · constructor
    · rw [hocc']
      simp [hwf.1]
    · rw [hlen']
      exact hwf.2
  · intro hsym hc k hk hkocc
    rw [hocc'] at hkocc ⊢
    rw [hgetD k]
    by_cases hki : k = i
    · subst hki
      rw [if_pos ⟨by simp, hwf.2 ▸ hk⟩, if_pos hkocc]
    · rw [if_neg (fun hcc => hki (by simpa using hcc.1))]
      by_cases hm2 : k ∈ surf.nni i
      · rw [if_pos ⟨hm2, hwf.2 ▸ hk⟩, if_pos hkocc]
      · rw [if_neg (fun hcc => hm2 hcc.1)]
        have hks : s.occ.getD k false = true := by
          rw [← getD_set_ne s.occ i k true false (fun hc2 => hki hc2.symm)]
          exact hkocc
        rw [hc k hk hks]
        unfold get_energy
        have hnik : i ∉ surf.nni k := by
          intro hmem
          exact hm2 (((hsym i hilt k hk).1 hmem))
        have hmap : (surf.nni k).map (fun m => (s.occ.set i true).getD m false)
            = (surf.nni k).map (fun m => s.occ.getD m false) := by
          apply List.map_congr_left
          intro m hm
          exact getD_set_ne s.occ i m true false
            (fun hc2 => hnik (hc2 ▸ hm))
        rw [hmap]

/-- `move_atom` preserves the aggregate-sum identity and the
unoccupied-zero invariant. -/
theorem move_atom_inv (V : Nat → List Bool → ℚ) (w : ℚ → ℚ)
    (surf : Surface) (ri rj : Nat) (s s' : MCState)
    (hwf : StWf surf s) (hsurf : SurfWf surf)
    (hz : EnergiesZero surf s) (he : s.energy = s.energies.sum)
    (h : move_atom V w surf ri rj s = some s') :
    s'.energy = s'.energies.sum ∧ EnergiesZero surf s' ∧ StWf surf s' := by
  obtain ⟨hne, hcase⟩ := move_atom_cases V w surf ri rj s s' h
  cases hcase with
  | inl hblk =>
    rw [hblk.2]
    exact ⟨he, hz, hwf⟩
  | inr hmain =>
    obtain ⟨_, _, j, hsel, hs'⟩ := hmain
    have hocc2 : s'.occ =
        (s.occ.set (sampled_site surf s ri) false).set j true := by
      rw [hs']
      exact move_commit_occ V surf _ j _
    have hgetD : ∀ k, s'.energies.getD k 0 =
        (if k ∈ [sampled_site surf s ri, j] ∧ k < s.energies.length
         then (if ((s.occ.set (sampled_site surf s ri) false).set j
                   true).getD k false
               then get_energy V surf
                 ((s.occ.set (sampled_site surf s ri) false).set j true) k
               else 0)
         else if k ∈ hop_cand surf (sampled_site surf s ri) ∧
                 k < s.energies.length
         then (if ((s.occ.set (sampled_site surf s ri) false).set j
                   true).getD k false
               then get_energy V surf
                 ((s.occ.set (sampled_site surf s ri) false).set j true) k
               else 0)
         else s.energies.getD k 0) := by
      intro k
      rw [hs']
      exact move_commit_energies_getD V surf (sampled_site surf s ri) j
        { s with attempted_moves := s.attempted_moves + 1 } k
    refine ⟨by rw [hs']; exact move_commit_sum V surf _ j _, ?_, ?_, ?_⟩
    · intro k hk hkocc
      rw [hocc2] at hkocc
      rw [hgetD k]
      by_cases hm1 : k ∈ [sampled_site surf s ri, j] ∧
          k < s.energies.length
      · rw [if_pos hm1, if_neg (by rw [hkocc]; simp)]
      · rw [if_neg hm1]
        by_cases hm2 : k ∈ hop_cand surf (sampled_site surf s ri) ∧
            k < s.energies.length
        · rw [if_pos hm2, if_neg (by rw [hkocc]; simp)]
        · rw [if_neg hm2]
          by_cases hki : k = sampled_site surf s ri
          · exact absurd ⟨by simp [hki], hwf.2 ▸ hk⟩ hm1
          · by_cases hkj : k = j
            · exact absurd ⟨by simp [hkj], hwf.2 ▸ hk⟩ hm1
            · have hks : s.occ.getD k false = false := by
                rw [getD_set_ne (s.occ.set (sampled_site surf s ri) false)
                      j k true false (fun hc2 => hkj hc2.symm),
                    getD_set_ne s.occ (sampled_site surf s ri) k false
                      false (fun hc2 => hki hc2.symm)] at hkocc
                exact hkocc
              exact hz k hk hks
    · rw [hocc2]
      simp [hwf.1]
    · rw [hs', move_commit_energies_length]
      exact hwf.2

/-- Every pre-population variant establishes all three energy invariants by
recomputing the full energy vector over all sites. -/
theorem prepopulate_inv (c : List Nat) (V : Nat → List Bool → ℚ)
    (surf : Surface) (s : MCState) (hwf : StWf surf s) :
    (prepopulate c V surf s).energy =
      (prepopulate c V surf s).energies.sum ∧
    EnergiesZero surf (prepopulate c V surf s) ∧
    EnergiesConsistent V surf (prepopulate c V surf s) ∧
    StWf surf (prepopulate c V surf s) := by
  have hocc : (prepopulate c V surf s).occ =
      c.foldl (fun a k => a.set k true) s.occ := rfl
  have hget : ∀ k, (prepopulate c V surf s).energies.getD k 0 =
      if k ∈ List.range surf.stlen ∧ k < s.energies.length
      then (if (c.foldl (fun a k => a.set k true) s.occ).getD k false
            then get_energy V surf
              (c.foldl (fun a k => a.set k true) s.occ) k else 0)
      else s.energies.getD k 0 := by
    intro k
    show (update_energy V surf (List.range surf.stlen)
      { s with add_prepopulated := c.length,
               occ := c.foldl (fun a k => a.set k true) s.occ }).energies.getD
        k 0 = _
    rw [update_energy_getD]
  refine ⟨?_, ?_, ?_, ?_⟩
  · show (update_energy V surf (List.range surf.stlen) _).energy = _
    exact update_energy_sum V surf _ _
  · intro k hk hkocc
    rw [hocc] at hkocc
    rw [hget k, if_pos ⟨List.mem_range.2 hk, hwf.2 ▸ hk⟩, if_neg
      (by rw [hkocc]; simp)]
  · intro k hk hkocc
    rw [hocc] at hkocc
    rw [hocc, hget k, if_pos ⟨List.mem_range.2 hk, hwf.2 ▸ hk⟩,
      if_pos hkocc]
  · constructor
    · rw [hocc, foldl_set_true_length]
      exact hwf.1
    · show (update_energy V surf (List.range surf.stlen) _).energies.length
        = _
      rw [update_energy_length]
      exact hwf.2

/-! ### Positivity of the hop weight vector -/

theorem masked_sum_nonneg (w : ℚ → ℚ) (hw : ∀ e, 0 < w e) :
    ∀ (es : List ℚ) (os : List Bool),
    0 ≤ (List.zipWith (fun pv o => if o then 0 else pv)
          (es.map w) os).sum := by
  intro es
  induction es with
  | nil => intro os; simp
  | cons e t ih =>
    intro os
    cases os with
    | nil => simp
    | cons o os =>
      rw [List.map_cons, List.zipWith_cons_cons, List.sum_cons]
      have h1 : (0 : ℚ) ≤ (if o then 0 else w e) := by
        cases o with
        | true => simp
        | false => simpa using (hw e).le
      have h2 := ih os
      exact add_nonneg h1 h2

/-- The masked weight vector of a hop always carries strictly positive
total mass when the weight function is strictly positive, because the
vacated origin `i` is candidate 0 and is never masked. -/
theorem hop_weights_sum_pos (V : Nat → List Bool → ℚ) (w : ℚ → ℚ)
    (surf : Surface) (s : MCState) (i : Nat)
    (hw : ∀ e, 0 < w e) (hi : i < s.occ.length) :
    0 < (hop_weights V w surf (s.occ.set i false) i).sum := by
  have hocc1i : (s.occ.set i false).getD i false = false :=
    getD_set_self s.occ i false false hi
  show 0 < (hop_masked
    (hop_raw w (hop_nne V surf (s.occ.set i false)
      (i :: (surf.nni i).take 3)))
    (hop_occ (s.occ.set i false) (i :: (surf.nni i).take 3))).sum
  rw [hop_nne, hop_occ, hop_raw, hop_masked, List.map_cons, List.map_cons,
      List.map_cons, List.zipWith_cons_cons, List.sum_cons]
  rw [hocc1i]
  have h1 : 0 < w (if false = true then 0
      else get_energy V surf (s.occ.set i false) i) := hw _
  have h2 := masked_sum_nonneg w hw
    (((surf.nni i).take 3).map (fun ii =>
      if (s.occ.set i false).getD ii false then 0
      else get_energy V surf (s.occ.set i false) ii))
    (((surf.nni i).take 3).map (fun ii => (s.occ.set i false).getD ii false))
  simp only [if_neg (by simp : ¬(false = true))] at h1 ⊢
  exact add_pos_of_pos_of_nonneg h1 h2

/-! ### Concrete fixtures for witnesses and counterexamples -/

/-- A concrete potential: one unit per occupied neighbour. -/
def Vcount : Nat → List Bool → ℚ := fun _ noc => (noc.count true : ℚ)

/-- A concrete strictly positive Boltzmann weight function. -/
def wone : ℚ → ℚ := fun _ => 1

/-- A 5-site test lattice: site 0 adjacent to all others, symmetric. -/
def S5 : Surface :=
  ⟨5, fun i => if i = 0 then [1, 2, 3, 4] else if i < 5 then [0] else []⟩

/-- A 25-site test lattice with full 24-entry neighbour rows (every other
site), symmetric. -/
def S25 : Surface :=
  ⟨25, fun i => (List.range 25).filter (fun k => decide (k ≠ i))⟩

/-- Sites 0 and 4 occupied on `S5`, energies consistent with `Vcount`. -/
def stateC1 : MCState :=
  { occ := [true, false, false, false, true],
    energies := [1, 0, 0, 0, 1], energy := 2,
    previous_occ := List.replicate 5 false,
    previous_energies := List.replicate 5 0, previous_energy := 0,
    attempted_moves := 0, successful_moves := 0, not_moved_moves := 0,
    blocked_moves := 0, move_accepted := 0, total_steps := 0,
    add_prepopulated := 0 }

/-- Sites 0 and 1 occupied on `S5`, energies consistent with `Vcount`. -/
def stateB : MCState :=
  { occ := [true, true, false, false, false],
    energies := [1, 1, 0, 0, 0], energy := 2,
    previous_occ := List.replicate 5 false,
    previous_energies := List.replicate 5 0, previous_energy := 0,
    attempted_moves := 0, successful_moves := 0, not_moved_moves := 0,
    blocked_moves := 0, move_accepted := 0, total_steps := 0,
    add_prepopulated := 0 }

/-- The empty 5-site state. -/
def stateEmpty5 : MCState :=
  { occ := List.replicate 5 false, energies := List.replicate 5 0,
    energy := 0, previous_occ := List.replicate 5 false,
    previous_energies := List.replicate 5 0, previous_energy := 0,
    attempted_moves := 0, successful_moves := 0, not_moved_moves := 0,
    blocked_moves := 0, move_accepted := 0, total_steps := 0,
    add_prepopulated := 0 }

/-- The fully occupied 5-site state. -/
def stateFull5 : MCState :=
  { stateEmpty5 with occ := List.replicate 5 true }

/-- The fully occupied 25-site state. -/
def stateFull25 : MCState :=
  { occ := List.replicate 25 true, energies := List.replicate 25 24,
    energy := 600, previous_occ := List.replicate 25 false,
    previous_energies := List.replicate 25 0, previous_energy := 0,
    attempted_moves := 0, successful_moves := 0, not_moved_moves := 0,
    blocked_moves := 0, move_accepted := 0, total_steps := 0,
    add_prepopulated := 0 }

/-- Site 0 occupied with its encasing ring (sites 19 to 24 — neighbour-row
positions 18 to 23) occupied and its inner surroundings empty, on `S25`. -/
def stateRing25 : MCState :=
  { occ := (List.range 25).map (fun k => (k == 0) || (19 ≤ k && k ≤ 24)),
    energies := List.replicate 25 0, energy := 0,
    previous_occ := List.replicate 25 false,
    previous_energies := List.replicate 25 0, previous_energy := 0,
    attempted_moves := 0, successful_moves := 0, not_moved_moves := 0,
    blocked_moves := 0, move_accepted := 0, total_steps := 0,
    add_prepopulated := 0 }

/-! ### Claim theorems -/

/-- C4: after any single call to `move_atom`, either the occupancy vector
is exactly what it was before the call (the blocked case or the `j == i`
stay-put case), or exactly one particle moved: `occ[i]` changed from true
to false and `occ[j]` from false to true for one site `j` distinct from
`i` lying in `i`'s candidate shell (the first 3 neighbour-table entries),
with `occ[j]` false immediately before the move, and no other entry
changed. -/
theorem C4_diffusion_step_shape (V : Nat → List Bool → ℚ) (w : ℚ → ℚ)
    (surf : Surface) (ri rj : Nat) (s s' : MCState)
    (hlen : s.occ.length = surf.stlen) (hwf : SurfWf surf)
    (h : move_atom V w surf ri rj s = some s') :
    s'.occ = s.occ ∨
    ∃ i j, i < surf.stlen ∧ j < surf.stlen ∧
      s.occ.getD i false = true ∧ s.occ.getD j false = false ∧ j ≠ i ∧
      j ∈ (surf.nni i).take 3 ∧
      s'.occ = (s.occ.set i false).set j true :=
  move_atom_occ V w surf ri rj s s' hlen hwf h

/-- The state produced by the move witnessing C4. -/
def c4res : MCState := (move_atom Vcount wone S5 0 1 stateC1).getD emptyState

theorem C4_diffusion_step_shape_witness :
    stateC1.occ.length = S5.stlen ∧ SurfWf S5 ∧
    (c4res.occ = stateC1.occ ∨
     ∃ i j, i < S5.stlen ∧ j < S5.stlen ∧
       stateC1.occ.getD i false = true ∧ stateC1.occ.getD j false = false ∧
       j ≠ i ∧ j ∈ (S5.nni i).take 3 ∧
       c4res.occ = (stateC1.occ.set i false).set j true) :=
  ⟨rfl, by decide,
   C4_diffusion_step_shape Vcount wone S5 0 1 stateC1 c4res rfl (by decide)
     (by with_unfolding_all rfl)⟩

/-- C10: every completed `move_atom` call increments `attempted_moves` by
one and then exactly one of `blocked_moves`, `successful_moves`,
`not_moved_moves` by one, so the identity
`attempted_moves == successful_moves + not_moved_moves + blocked_moves`
is preserved; all four counters are monotonically non-decreasing. -/
theorem C10_move_counter_identity (V : Nat → List Bool → ℚ) (w : ℚ → ℚ)
    (surf : Surface) (ri rj : Nat) (s s' : MCState)
    (h : move_atom V w surf ri rj s = some s') :
    s'.attempted_moves = s.attempted_moves + 1 ∧
    s'.successful_moves + s'.not_moved_moves + s'.blocked_moves =
      s.successful_moves + s.not_moved_moves + s.blocked_moves + 1 ∧
    s.attempted_moves ≤ s'.attempted_moves ∧
    s.successful_moves ≤ s'.successful_moves ∧
    s.not_moved_moves ≤ s'.not_moved_moves ∧
    s.blocked_moves ≤ s'.blocked_moves ∧
    (s.attempted_moves =
       s.successful_moves + s.not_moved_moves + s.blocked_moves →
     s'.attempted_moves =
       s'.successful_moves + s'.not_moved_moves + s'.blocked_moves) := by
  obtain ⟨hatt, hone, _⟩ := move_atom_counters V w surf ri rj s s' h
  rcases hone with ⟨h1, h2, h3⟩ | ⟨h1, h2, h3⟩ | ⟨h1, h2, h3⟩ <;> omega

/-- The state produced by the move witnessing C10. -/
def c10res : MCState := (move_atom Vcount wone S5 0 0 stateC1).getD emptyState

theorem C10_move_counter_identity_witness :
    move_atom Vcount wone S5 0 0 stateC1 = some c10res ∧
    (c10res.attempted_moves = stateC1.attempted_moves + 1 ∧
     c10res.successful_moves + c10res.not_moved_moves + c10res.blocked_moves =
       stateC1.successful_moves + stateC1.not_moved_moves +
         stateC1.blocked_moves + 1 ∧
     stateC1.attempted_moves ≤ c10res.attempted_moves ∧
     stateC1.successful_moves ≤ c10res.successful_moves ∧
     stateC1.not_moved_moves ≤ c10res.not_moved_moves ∧
     stateC1.blocked_moves ≤ c10res.blocked_moves ∧
     (stateC1.attempted_moves =
        stateC1.successful_moves + stateC1.not_moved_moves +
          stateC1.blocked_moves →
      c10res.attempted_moves =
        c10res.successful_moves + c10res.not_moved_moves +
          c10res.blocked_moves)) :=
  ⟨by with_unfolding_all rfl,
   C10_move_counter_identity Vcount wone S5 0 0 stateC1 c10res
     (by with_unfolding_all rfl)⟩

/-- C5: after any `add_atom` call that succeeds (returns with
`add_success = True`), the occupancy vector has exactly one more true
entry than before, the newly occupied site was unoccupied, and every site
in its exclusion-zone shell (first 9 neighbour-table entries) was
unoccupied immediately before the call. -/
theorem C5_successful_deposition (pick : Nat → Nat)
    (V : Nat → List Bool → ℚ) (surf : Surface) (s : MCState) (i : Nat)
    (s' : MCState) (hlen : s.occ.length = surf.stlen)
    (h : add_atom pick V surf s = some (i, true, s')) :
    atoms_on_surface s' = atoms_on_surface s + 1 ∧
    s'.occ = s.occ.set i true ∧
    s.occ.getD i false = false ∧
    ∀ k ∈ (surf.nni i).take 9, s.occ.getD k false = false := by
  obtain ⟨hne, hi, hb, _⟩ := add_atom_cases pick V surf s i true s' h
  obtain ⟨hilt, hiocc, hocc'⟩ := add_atom_found pick V surf s i true s' h
  obtain ⟨hcount, _⟩ := add_atom_count pick V surf s i true s' hlen h
  refine ⟨hcount, hocc', hiocc, ?_⟩
  have hgood : add_good surf s i = true := by
    rw [hi]
    exact add_search_good pick _ _ 0 _ hb.symm
  unfold add_good at hgood
  rw [Bool.not_eq_true'] at hgood
  intro k hk
  have hfa := List.any_eq_false.1 hgood k hk
  simpa using hfa

/-- The result of the deposition witnessing C5. -/
def c5res : Nat × Bool × MCState :=
  (add_atom (fun _ => 0) Vcount S5 stateEmpty5).getD (0, false, emptyState)

theorem C5_successful_deposition_witness :
    stateEmpty5.occ.length = S5.stlen ∧
    add_atom (fun _ => 0) Vcount S5 stateEmpty5 =
      some (c5res.1, true, c5res.2.2) ∧
    (atoms_on_surface c5res.2.2 = atoms_on_surface stateEmpty5 + 1 ∧
     c5res.2.2.occ = stateEmpty5.occ.set c5res.1 true ∧
     stateEmpty5.occ.getD c5res.1 false = false ∧
     ∀ k ∈ (S5.nni c5res.1).take 9, stateEmpty5.occ.getD k false = false) :=
  ⟨rfl, by with_unfolding_all rfl,
   C5_successful_deposition (fun _ => 0) Vcount S5 stateEmpty5 c5res.1
     c5res.2.2 rfl (by with_unfolding_all rfl)⟩

/-- C9: provided at least one site is unoccupied at entry, `add_atom`
completes, the site it finally occupies was unoccupied at entry (so the
"already occupied position" warning condition is false), and the occupied
count grows by exactly one regardless of the `add_success` flag. -/
theorem C9_add_atom_safe (pick : Nat → Nat) (V : Nat → List Bool → ℚ)
    (surf : Surface) (s : MCState) (hlen : s.occ.length = surf.stlen)
    (hne : not_occ_list surf s ≠ []) :
    ∃ i b s', add_atom pick V surf s = some (i, b, s') ∧
      s.occ.getD i false = false ∧
      s'.occ = s.occ.set i true ∧
      atoms_on_surface s' = atoms_on_surface s + 1 := by
  have hlen0 : ¬((not_occ_list surf s).length = 0) := by
    intro hc
    exact hne (List.length_eq_zero.1 hc)
  cases hadd : add_atom pick V surf s with
  | none =>
    unfold add_atom at hadd
    rw [if_neg hlen0] at hadd
    exact absurd hadd (by simp)
  | some t =>
    have hadd' : add_atom pick V surf s = some (t.1, t.2.1, t.2.2) := by
      rw [hadd]
    obtain ⟨_, hiocc2, hocc'⟩ :=
      add_atom_found pick V surf s t.1 t.2.1 t.2.2 hadd'
    obtain ⟨hcount, _⟩ :=
      add_atom_count pick V surf s t.1 t.2.1 t.2.2 hlen hadd'
    exact ⟨t.1, t.2.1, t.2.2, rfl, hiocc2, hocc', hcount⟩

theorem C9_add_atom_safe_witness :
    stateB.occ.length = S5.stlen ∧ not_occ_list S5 stateB ≠ [] ∧
    (∃ i b s', add_atom (fun _ => 0) Vcount S5 stateB = some (i, b, s') ∧
       stateB.occ.getD i false = false ∧
       s'.occ = stateB.occ.set i true ∧
       atoms_on_surface s' = atoms_on_surface stateB + 1) :=
  ⟨rfl, by decide,
   C9_add_atom_safe (fun _ => 0) Vcount S5 stateB rfl (by decide)⟩

/-- C6: in `move_atom`'s weighted destination choice, an occupied
candidate (after the origin `i` was vacated) carries exactly zero raw
weight and zero normalized probability, and the sampled destination is
always unoccupied at selection time. -/
theorem C6_hop_mask_zero (V : Nat → List Bool → ℚ) (w : ℚ → ℚ)
    (surf : Surface) (s : MCState) (i rj k j : Nat)
    (hk : k < (hop_cand surf i).length)
    (hko : (s.occ.set i false).getD ((hop_cand surf i).getD k 0) false
      = true)
    (hsel : hop_select (hop_cand surf i)
      (hop_probs (hop_weights V w surf (s.occ.set i false) i)) rj
      = some j) :
    (hop_weights V w surf (s.occ.set i false) i).getD k 0 = 0 ∧
    (hop_probs (hop_weights V w surf (s.occ.set i false) i)).getD k 0
      = 0 ∧
    (s.occ.set i false).getD j false = false := by
  have hkw : k < (hop_weights V w surf (s.occ.set i false) i).length := by
    rw [hop_weights_length]
    exact hk
  have h1 : (hop_weights V w surf (s.occ.set i false) i).getD k 0 = 0 := by
    rw [getD_eq_getElem _ _ _ hkw,
        hop_weights_getElem V w surf (s.occ.set i false) i k hkw,
        if_pos hko]
  refine ⟨h1, ?_, (hop_select_facts V w surf (s.occ.set i false) i rj j
    hsel).1⟩
  rw [hop_probs_getD _ _ hkw, h1, zero_div]

theorem C6_hop_mask_zero_witness :
    1 < (hop_cand S5 0).length ∧
    (stateB.occ.set 0 false).getD ((hop_cand S5 0).getD 1 0) false
      = true ∧
    hop_select (hop_cand S5 0)
      (hop_probs (hop_weights Vcount wone S5 (stateB.occ.set 0 false) 0)) 0
      = some 0 ∧
    ((hop_weights Vcount wone S5 (stateB.occ.set 0 false) 0).getD 1 0
       = 0 ∧
     (hop_probs (hop_weights Vcount wone S5
       (stateB.occ.set 0 false) 0)).getD 1 0 = 0 ∧
     (stateB.occ.set 0 false).getD 0 false = false) :=
  ⟨by decide, by decide, by with_unfolding_all rfl,
   C6_hop_mask_zero Vcount wone S5 stateB 0 0 1 0 (by decide) (by decide)
     (by with_unfolding_all rfl)⟩

/-- C7 (amended): the weight normalization in `move_atom` is an unguarded
division by the weight sum, but with a strictly positive weight function
(as the real exponential is) the vacated origin — candidate 0 — always
carries strictly positive weight, so the sum is strictly positive and the
all-four-candidates-occupied failure cannot occur in exact arithmetic. -/
theorem C7_weights_sum_positive (V : Nat → List Bool → ℚ) (w : ℚ → ℚ)
    (surf : Surface) (s : MCState) (i : Nat)
    (hw : ∀ e, 0 < w e) (hi : i < s.occ.length) :
    0 < (hop_weights V w surf (s.occ.set i false) i).sum :=
  hop_weights_sum_pos V w surf s i hw hi

theorem wone_pos : ∀ e, 0 < wone e := by
  intro e
  show (0 : ℚ) < 1
  with_unfolding_all decide

theorem C7_weights_sum_positive_witness :
    (∀ e, 0 < wone e) ∧ 0 < stateFull25.occ.length ∧
    0 < (hop_weights Vcount wone S25 (stateFull25.occ.set 0 false) 0).sum :=
  ⟨wone_pos, by decide,
   C7_weights_sum_positive Vcount wone S25 stateFull25 0 wone_pos
     (by decide)⟩

/-- C7 counterexample: in the most-occupied reachable configuration (all
three first-shell neighbours occupied, the spec's "all four candidates
occupied" scenario — impossible because candidate 0 is the vacated
origin), the masked weight vector is `[1, 0, 0, 0]` with sum `1`, not the
all-zero vector the claim asserts to exist. -/
theorem C7_counterexample :
    hop_occ (stateFull25.occ.set 0 false) (hop_cand S25 0) =
      [false, true, true, true] ∧
    hop_weights Vcount wone S25 (stateFull25.occ.set 0 false) 0 =
      [1, 0, 0, 0] ∧
    (hop_weights Vcount wone S25 (stateFull25.occ.set 0 false) 0).sum
      = 1 := by
  refine ⟨by with_unfolding_all decide, by with_unfolding_all decide,
    by with_unfolding_all decide⟩

/-- C1 (amended): after every completed state-mutating operation the
scalar energy equals the sum of the energies vector and `energies[i] == 0`
for every unoccupied `i` — these conclusions need only the same invariants
(plus state sizing) at entry and are returned together with the sizing, so
the theorem reapplies at each successive observation point of a run; the
per-site potential-consistency invariant is established by every
prepopulate variant, preserved by `add_atom` when the neighbour table is
symmetric, but not preserved by `move_atom`, which recomputes only the
4-candidate shell and `{i, j}` and leaves farther occupied neighbours
stale (see the counterexample). -/
theorem C1_energy_invariants (V : Nat → List Bool → ℚ) (w : ℚ → ℚ)
    (surf : Surface) (s : MCState)
    (hwf : StWf surf s) (hsurf : SurfWf surf)
    (hz : EnergiesZero surf s) (he : s.energy = s.energies.sum) :
    (∀ ri rj s', move_atom V w surf ri rj s = some s' →
       s'.energy = s'.energies.sum ∧ EnergiesZero surf s' ∧
       StWf surf s') ∧
    (∀ pick i b s', add_atom pick V surf s = some (i, b, s') →
       s'.energy = s'.energies.sum ∧ EnergiesZero surf s' ∧
       StWf surf s' ∧
       (NeighborSymm surf → EnergiesConsistent V surf s →
        EnergiesConsistent V surf s')) ∧
    (∀ c, (prepopulate c V surf s).energy =
            (prepopulate c V surf s).energies.sum ∧
          EnergiesZero surf (prepopulate c V surf s) ∧
          EnergiesConsistent V surf (prepopulate c V surf s) ∧
          StWf surf (prepopulate c V surf s)) ∧
    (∀ idx, (update_energy V surf idx s).energy =
              (update_energy V surf idx s).energies.sum) :=
  ⟨fun ri rj s' h => move_atom_inv V w surf ri rj s s' hwf hsurf hz he h,
   fun pick i b s' h => add_atom_inv pick V surf s i b s' hwf hz h,
   fun c => prepopulate_inv c V surf s hwf,
   fun idx => update_energy_sum V surf idx s⟩

/-- The state produced by the move witnessing C1. -/
def c1res : MCState := (move_atom Vcount wone S5 0 1 stateC1).getD emptyState

/-- The deposition performed after that move (on a state that no longer
satisfies the consistency invariant), witnessing that the sum and zero
invariant conclusions keep chaining. -/
def c1add : Nat × Bool × MCState :=
  (add_atom (fun _ => 1) Vcount S5 c1res).getD (0, false, emptyState)

theorem C1_energy_invariants_witness :
    StWf S5 stateC1 ∧ SurfWf S5 ∧ EnergiesZero S5 stateC1 ∧
    stateC1.energy = stateC1.energies.sum ∧
    (c1res.energy = c1res.energies.sum ∧ EnergiesZero S5 c1res ∧
     StWf S5 c1res) ∧
    (c1add.2.2.energy = c1add.2.2.energies.sum ∧
     EnergiesZero S5 c1add.2.2 ∧ StWf S5 c1add.2.2 ∧
     (NeighborSymm S5 → EnergiesConsistent Vcount S5 c1res →
      EnergiesConsistent Vcount S5 c1add.2.2)) :=
  ⟨by decide, by decide, by with_unfolding_all decide,
   by with_unfolding_all decide,
   (C1_energy_invariants Vcount wone S5 stateC1 (by decide) (by decide)
      (by with_unfolding_all decide) (by with_unfolding_all decide)).1
     0 1 c1res (by with_unfolding_all rfl),
   (C1_energy_invariants Vcount wone S5 c1res
      (by with_unfolding_all decide) (by decide)
      (by with_unfolding_all decide) (by with_unfolding_all decide)).2.1
     (fun _ => 1) c1add.1 c1add.2.1 c1add.2.2 (by with_unfolding_all rfl)⟩

/-- C1 counterexample: `stateC1` satisfies all three invariants, yet after
one successful hop (site 0 to site 1) the farther occupied neighbour
(site 4) keeps its stale stored energy `1` while the Potential Model on
the current occupancy yields `0` — so the per-site consistency part of the
claimed invariant fails after `move_atom`. -/
theorem C1_counterexample :
    EnergiesZero S5 stateC1 ∧ EnergiesConsistent Vcount S5 stateC1 ∧
    stateC1.energy = stateC1.energies.sum ∧ NeighborSymm S5 ∧
    (move_atom Vcount wone S5 0 1 stateC1).map
      (fun s => (s.occ.getD 4 false, s.energies.getD 4 0,
                 get_energy Vcount S5 s.occ 4,
                 s.energies.getD 4 0 == get_energy Vcount S5 s.occ 4)) =
      some (true, 1, 0, false) := by
  refine ⟨by with_unfolding_all decide, by with_unfolding_all decide,
    by with_unfolding_all decide, by decide, by with_unfolding_all decide⟩

/-- C2 (amended): when the sampled site's encasing ring (neighbour-table
entries 18 to 24) is fully occupied, its inner surroundings (entries 0 to
18) are fully unoccupied, and the site itself is occupied, `move_atom`
takes the blocked branch: it increments `attempted_moves` and
`blocked_moves` and leaves everything else, occupancy included,
unchanged. -/
theorem C2_blocked_move (V : Nat → List Bool → ℚ) (w : ℚ → ℚ)
    (surf : Surface) (ri rj : Nat) (s : MCState)
    (hne : occ_list surf s ≠ [])
    (hring : (((surf.nni (sampled_site surf s ri)).drop 18).take 6).all
       (fun k => s.occ.getD k false) = true)
    (hinner : ((surf.nni (sampled_site surf s ri)).take 18).any
       (fun k => s.occ.getD k false) = false) :
    move_atom V w surf ri rj s =
      some { s with attempted_moves := s.attempted_moves + 1,
                    blocked_moves := s.blocked_moves + 1 } := by
  have hlen0 : ¬((occ_list surf s).length = 0) := by
    intro hc
    exact hne (List.length_eq_zero.1 hc)
  have hocc_i : s.occ.getD (sampled_site surf s ri) false = true :=
    (sampled_site_occupied surf s ri hne).2
  have hblk : blocked_cond surf s (sampled_site surf s ri) = true := by
    unfold blocked_cond
    rw [hring, hinner, hocc_i]
    rfl
  unfold move_atom
  rw [if_neg hlen0, if_pos hblk]

theorem C2_blocked_move_witness :
    occ_list S25 stateRing25 ≠ [] ∧
    (((S25.nni (sampled_site S25 stateRing25 0)).drop 18).take 6).all
      (fun k => stateRing25.occ.getD k false) = true ∧
    ((S25.nni (sampled_site S25 stateRing25 0)).take 18).any
      (fun k => stateRing25.occ.getD k false) = false ∧
    move_atom Vcount wone S25 0 0 stateRing25 =
      some { stateRing25 with
             attempted_moves := stateRing25.attempted_moves + 1,
             blocked_moves := stateRing25.blocked_moves + 1 } :=
  ⟨by decide, by decide, by decide,
   C2_blocked_move Vcount wone S25 0 0 stateRing25 (by decide) (by decide)
     (by decide)⟩

/-- C2 counterexample: with the inner-surroundings shell fully occupied as
the claim states, the blocked branch is not taken: the sampled buried site
stays put via the weighted choice (occupancy unchanged) but
`blocked_moves` is not incremented. -/
theorem C2_counterexample :
    (((S25.nni 0).drop 18).take 6).all
      (fun k => stateFull25.occ.getD k false) = true ∧
    ((S25.nni 0).take 18).all
      (fun k => stateFull25.occ.getD k false) = true ∧
    stateFull25.occ.getD 0 false = true ∧
    sampled_site S25 stateFull25 0 = 0 ∧
    stateFull25.blocked_moves = 0 ∧
    (move_atom Vcount wone S25 0 0 stateFull25).map
      (fun s => (s.blocked_moves, s.occ == stateFull25.occ)) =
      some (0, true) := by
  refine ⟨by decide, by decide, by decide, by decide, by decide,
    by with_unfolding_all decide⟩

/-- C3 (amended): when every lattice site is occupied, `add_atom` fails
while sampling from the empty unoccupied-site array (the modelled
`ValueError`, returned as `none`) before any attempt or report is made,
and in particular no occupancy is mutated. -/
theorem C3_full_lattice_add_error (pick : Nat → Nat)
    (V : Nat → List Bool → ℚ) (surf : Surface) (s : MCState)
    (hfull : ∀ k, k < surf.stlen → s.occ.getD k false = true) :
    add_atom pick V surf s = none := by
  have hemp : not_occ_list surf s = [] := by
    unfold not_occ_list
    rw [List.filter_eq_nil_iff]
    intro a ha
    rw [List.mem_range] at ha
    have hocc := hfull a ha
    simp only [List.getD_eq_getElem?_getD] at hocc
    simp [hocc]
  unfold add_atom
  rw [hemp]
  rfl

theorem C3_full_lattice_add_error_witness :
    (∀ k, k < S5.stlen → stateFull5.occ.getD k false = true) ∧
    add_atom (fun n => n) Vcount S5 stateFull5 = none :=
  ⟨by decide,
   C3_full_lattice_add_error (fun n => n) Vcount S5 stateFull5 (by decide)⟩

/-- C3 counterexample: on the fully occupied 5-site lattice `add_atom`
returns the empty-sample error (`none`); it never completes with the
`add_success = False` ExhaustedAttempts report the claim describes. -/
theorem C3_counterexample :
    (List.range 5).all (fun k => stateFull5.occ.getD k false) = true ∧
    add_atom (fun n => n) Vcount S5 stateFull5 = none :=
  ⟨by decide, by with_unfolding_all rfl⟩

/-- C8: in every step of `run_lap`, a deposition is attempted iff coverage
is strictly below the target (the occupied count then grows by one, else
stays), the step performs exactly `moves_per_step` times the occupied
count of diffusion attempts with the count read after the step's own
deposition (observable through `attempted_moves`), and coverage is
non-decreasing over the lap. -/
theorem C8_lap_schedule (V : Nat → List Bool → ℚ) (w : ℚ → ℚ)
    (surf : Surface) (target : ℚ) (mps : Nat) (rA : Nat → Nat → Nat)
    (rM : Nat → Nat → Nat × Nat) (k steps : Nat) (s : MCState)
    (hlen : s.occ.length = surf.stlen) (hwf : SurfWf surf) :
    (∀ (rA1 : Nat → Nat) (rM1 : Nat → Nat × Nat) (s' : MCState),
       run_step V w surf target mps rA1 rM1 s = some s' →
       (coverage s < target →
          atoms_on_surface s' = atoms_on_surface s + 1 ∧
          s'.attempted_moves =
            s.attempted_moves + mps * (atoms_on_surface s + 1)) ∧
       (¬ coverage s < target →
          atoms_on_surface s' = atoms_on_surface s ∧
          s'.attempted_moves =
            s.attempted_moves + mps * atoms_on_surface s)) ∧
    (∀ s'', run_lap V w surf target mps rA rM k steps s = some s'' →
       coverage s ≤ coverage s'') := by
  constructor
  · intro rA1 rM1 s' h
    obtain ⟨_, h1, h2, _⟩ := run_step_spec V w surf target mps rA1 rM1 s s'
      hlen hwf h
    exact ⟨h1, h2⟩
  · intro s'' h
    obtain ⟨hle, hl⟩ := run_lap_atoms V w surf target mps rA rM steps k s
      s'' hlen hwf h
    exact coverage_mono s s'' hl hle

/-- The state after the step witnessing C8. -/
def c8step : MCState :=
  (run_step Vcount wone S5 (1/2) 1 (fun _ => 0) (fun _ => (0, 0))
    stateEmpty5).getD emptyState

/-- The state after the lap witnessing C8. -/
def c8lap : MCState :=
  (run_lap Vcount wone S5 (1/2) 1 (fun _ _ => 0) (fun _ _ => (0, 0)) 0 1
    stateEmpty5).getD emptyState

theorem C8_lap_schedule_witness :
    stateEmpty5.occ.length = S5.stlen ∧ SurfWf S5 ∧
    ((coverage stateEmpty5 < 1/2 →
        atoms_on_surface c8step = atoms_on_surface stateEmpty5 + 1 ∧
        c8step.attempted_moves = stateEmpty5.attempted_moves +
          1 * (atoms_on_surface stateEmpty5 + 1)) ∧
     (¬ coverage stateEmpty5 < 1/2 →
        atoms_on_surface c8step = atoms_on_surface stateEmpty5 ∧
        c8step.attempted_moves = stateEmpty5.attempted_moves +
          1 * atoms_on_surface stateEmpty5)) ∧
    coverage stateEmpty5 ≤ coverage c8lap :=
  ⟨rfl, by decide,
   (C8_lap_schedule Vcount wone S5 (1/2) 1 (fun _ _ => 0)
      (fun _ _ => (0, 0)) 0 1 stateEmpty5 rfl (by decide)).1
     (fun _ => 0) (fun _ => (0, 0)) c8step (by with_unfolding_all rfl),
   (C8_lap_schedule Vcount wone S5 (1/2) 1 (fun _ _ => 0)
      (fun _ _ => (0, 0)) 0 1 stateEmpty5 rfl (by decide)).2
     c8lap (by with_unfolding_all rfl)⟩
